import Mathlib

/-!
Verification of the fish-shell completion generator
(`stgit/completion/fish.py`).

The generator is a pure function from the command registry and the
configuration defaults to the text of a completion script.  We embed it
shallowly: the output stream is modelled as the list of printed lines
(each `put(*args)` call joins its arguments with single spaces, exactly
like Python's `print`; a multi-line string literal contributes its
constituent lines), and a raised exception (`AssertionError` for an
unknown argument kind, `IndexError` for an empty alias value list) is
modelled as `Except.error`.

The command registry and configuration defaults are external
collaborators (they live outside this file's source): following the
code's use of them, a command is modelled as its resolved record
(display name, help string, positional argument specs, options) and the
configuration defaults as an ordered list of (dotted key, value list)
pairs.
-/

/-- `_file_args` from the source: the bare argument keywords that mark
path-like completion. -/
def file_args : List String := ["files", "dir", "repo"]

/-- `_has_fish_func_args` from the source: the closed set of recognized
dynamic-completion keywords, each backed by a provider function in the
script preamble. -/
def has_fish_func_args : List String :=
  ["stg_branches",
   "all_branches",
   "applied_patches",
   "unapplied_patches",
   "hidden_patches",
   "other_applied_patches",
   "commit",
   "conflicting_files",
   "dirty_files",
   "unknown_files",
   "known_files",
   "mail_aliases"]

/-- One argument specification, as the classifier in the source
distinguishes them: `patch_range` (an `stgit.argparse.patch_range`, a
list of endpoint keywords), `strings` (an `stgit.argparse.strings`, a
list of literal completion values), or a bare string keyword (which the
source then tests against `_file_args` and `_has_fish_func_args`). -/
inductive Arg where
  | patch_range (endpoints : List String)
  | strings (values : List String)
  | bare (keyword : String)
deriving DecidableEq

/-- `_get_file_completion_flag`: `-r` when any `_file_args` keyword
occurs as an element of the argument list (in Python, `file_arg in args`
compares `file_arg` for equality against each element, so only a bare
string element can match), else `-f`. -/
def get_file_completion_flag (args : List Arg) : String :=
  if file_args.any (fun file_arg => args.contains (Arg.bare file_arg)) then
    "-r"
  else
    "-f"

/-- Python's `str.startswith`, modelled on the character sequence (a
Python string is a sequence of code points, i.e. `String.data`). -/
def str_startswith (s pre : String) : Bool :=
  pre.data.isPrefixOf s.data

/-- Python's slice `s[n:]`, modelled on the character sequence. -/
def str_drop (s : String) (n : Nat) : String :=
  String.mk (s.data.drop n)

/-- Python's `len` on a string: its number of code points. -/
def str_len (s : String) : Nat :=
  s.data.length

/-- The provider-call expression `'(__fish_stg_%s)' % keyword` built by
`_completions_from_args` for a recognized dynamic keyword. -/
def fish_func_expr (keyword : String) : String :=
  "(__fish_stg_" ++ keyword ++ ")"

/-- The loop body of `_completions_from_args`, producing the list of
completion-expression tokens it accumulates in `completions`:
`patch_range` contributes a provider call per recognized endpoint,
`strings` contributes each literal value, a bare `_file_args` keyword
contributes nothing, a bare `_has_fish_func_args` keyword contributes
one provider call, and anything else raises
`AssertionError('unknown arg kind: %s' % arg)`. -/
def completions_from_args_tokens : List Arg → Except String (List String)
  | [] => Except.ok []
  | Arg.patch_range endpoints :: rest =>
      (completions_from_args_tokens rest).map
        (fun tokens =>
          endpoints.filterMap (fun endpoint =>
            if endpoint ∈ has_fish_func_args then
              some (fish_func_expr endpoint)
            else
              none) ++ tokens)
  | Arg.strings values :: rest =>
      (completions_from_args_tokens rest).map (fun tokens => values ++ tokens)
  | Arg.bare keyword :: rest =>
      if keyword ∈ file_args then
        completions_from_args_tokens rest
      else if keyword ∈ has_fish_func_args then
        (completions_from_args_tokens rest).map
          (fun tokens => fish_func_expr keyword :: tokens)
      else
        Except.error ("unknown arg kind: " ++ keyword)

/-- `_completions_from_args`: the accumulated tokens joined by a single
space (`' '.join(completions)`). -/
def completions_from_args (args : List Arg) : Except String String :=
  (completions_from_args_tokens args).map
    (fun tokens => String.intercalate " " tokens)

/-- One option record as the renderer reads it: `opt.flags`,
`opt.args`, and `opt.kwargs.get('short')` (its short help text). -/
structure Opt where
  flags : List String
  args : List Arg
  short : String
deriving DecidableEq

/-- One resolved command record: the display name `cmd` from the
registry together with `mod.help`, `mod.args` and `mod.options` of the
looked-up command module. -/
structure Cmd where
  name : String
  help : String
  args : List Arg
  options : List Opt
deriving DecidableEq

/-- The flag-scanning loop of the option renderer: starting from
`short_opt = '    '` and `long_opt = ''`, each flag of length 2
beginning with `-` overwrites the short token with `'-s ' + flag[1]`,
and each flag beginning with `--` overwrites the long token with
`'-l ' + flag[2:]`. -/
def opt_flag_tokens (flags : List String) : String × String :=
  flags.foldl
    (fun state flag =>
      ((if str_len flag = 2 && str_startswith flag "-" then
          "-s " ++ str_drop flag 1
        else
          state.1),
       (if str_startswith flag "--" then
          "-l " ++ str_drop flag 2
        else
          state.2)))
    ("    ", "")

/-- The option directive emitted for one option of command `cmdname`:
`put("complete", flag, "-c stg", "-n '…'", short_opt, long_opt,
"-d '…'", extra)`, the eight tokens joined by single spaces, with
`extra` equal to `"-xa '%s'" % completions` when the joined completion
string is non-empty and the empty string otherwise. -/
def render_option (cmdname : String) (opt : Opt) : Except String String :=
  (completions_from_args opt.args).map (fun completions =>
    String.intercalate " "
      ["complete",
       get_file_completion_flag opt.args,
       "-c stg",
       "-n '__fish_seen_subcommand_from " ++ cmdname ++ "'",
       (opt_flag_tokens opt.flags).1,
       (opt_flag_tokens opt.flags).2,
       "-d '" ++ opt.short ++ "'",
       (if completions ≠ "" then "-xa '" ++ completions ++ "'" else "")])

/-- The per-command block of `write_fish_completion`: a blank separator
line and a `### name` comment, the subcommand-registration directive,
the positional-argument directive (with `extra = "-ra '%s'"` when the
command's completion string is non-empty, else empty), the help-flag
directive, then one option directive per option in declaration order. -/
def render_command (c : Cmd) : Except String (List String) := do
  let completions ← completions_from_args c.args
  let optionLines ← c.options.mapM (render_option c.name)
  Except.ok
    (["",
      "### " ++ c.name,
      "complete    -c stg -n '__fish_use_subcommand' -x -a " ++ c.name
        ++ " -d '" ++ c.help ++ "'",
      String.intercalate " "
        ["complete",
         get_file_completion_flag c.args,
         "-c stg",
         "-n '__fish_seen_subcommand_from " ++ c.name ++ "'",
         (if completions ≠ "" then "-ra '" ++ completions ++ "'" else "")],
      "complete -f -c stg -n '__fish_seen_subcommand_from " ++ c.name
        ++ "' -s h -l help -d 'show detailed help for " ++ c.name ++ "'"]
     ++ optionLines)

/-- The alias-collection loop of `write_fish_completion`: every
defaults entry whose key starts with `stgit.alias.` contributes the
pair (key minus the prefix, first element of the value list).  Since
the key starts with the prefix, Python's
`name.replace('stgit.alias.', '', 1)` removes exactly that leading
prefix; `values[0]` on an empty value list raises `IndexError`. -/
def collect_aliases :
    List (String × List String) → Except String (List (String × String))
  | [] => Except.ok []
  | (name, values) :: rest =>
      if str_startswith name "stgit.alias." then
        match values with
        | [] => Except.error "IndexError: list index out of range"
        | command :: _ =>
            (collect_aliases rest).map
              (fun aliases =>
                (str_drop name (str_len "stgit.alias."), command) :: aliases)
      else
        collect_aliases rest

/-- The fixed literal preamble of the generated script: the header
comment and one provider function per recognized dynamic keyword,
exactly as printed by the first `put` call. -/
def preamble_lines : List String :=
  ["# Fish shell completion for StGit (stg)",
   "#",
   "# To use, copy this file to one of the paths in $fish_complete_path, e.g.:",
   "#",
   "#   ~/.config/fish/completions",
   "#",
   "# This file is autogenerated.",
   "",
   "function __fish_stg_all_branches",
   "    command git for-each-ref --format='%(refname)' \\",
   "        refs/heads/ refs/remotes/ 2>/dev/null \\",
   "        | string replace -r '^refs/heads/(.*)$' '$1\\tLocal Branch' \\",
   "        | string replace -r '^refs/remotes/(.*)$' '$1\\tRemote Branch'",
   "end",
   "",
   "function __fish_stg_stg_branches",
   "    command stg branch --list 2>/dev/null \\",
   "        | string match -r \". s.\\t\\S+\" \\",
   "        | string replace -r \". s.\\t\" \"\"",
   "end",
   "",
   "function __fish_stg_applied_patches",
   "    command stg series --noprefix --applied 2>/dev/null",
   "end",
   "",
   "function __fish_stg_other_applied_patches",
   "    set -l top (command stg top 2>/dev/null)",
   "    command stg series --noprefix --applied 2>/dev/null \\",
   "        | string match --invert \"$top\"",
   "end",
   "",
   "function __fish_stg_unapplied_patches",
   "    command stg series --noprefix --unapplied 2>/dev/null",
   "end",
   "",
   "function __fish_stg_hidden_patches",
   "    command stg series --noprefix --hidden 2>/dev/null",
   "end",
   "",
   "function __fish_stg_tags",
   "    command git tag --sort=-creatordate 2>/dev/null",
   "end",
   "",
   "function __fish_stg_commit",
   "    __fish_stg_all_branches __fish_stg_tags",
   "end",
   "",
   "function __fish_stg_conflicting_files",
   "    command git ls-files --unmerged \\",
   "        | string replace -rf '^.*\\t(.*)$' '$1' \\",
   "        | sort -u",
   "end",
   "",
   "function __fish_stg_dirty_files",
   "    command git diff-index --name-only HEAD 2>/dev/null",
   "end",
   "",
   "function __fish_stg_unknown_files",
   "    command git ls-files --others --exclude-standard 2>/dev/null",
   "end",
   "",
   "function __fish_stg_known_files",
   "    command git ls-files 2>/dev/null",
   "end",
   "",
   "function __fish_stg_mail_aliases",
   "    command git config --name-only --get-regexp \"^mail\\.alias\\.\" \\",
   "    | cut -d. -f 3",
   "end"]

/-- The `__fish_stg_is_alias` function block, whose single non-wildcard
`case` label line lists every alias name joined by spaces. -/
def is_alias_lines (aliases : List (String × String)) : List String :=
  ["",
   "function __fish_stg_is_alias",
   "    set --local tokens (commandline -opc) (commandline -ct)",
   "    if test \"$tokens[1]\" = \"stg\"",
   "        switch \"$tokens[2]\"",
   "            case " ++ String.intercalate " " (aliases.map (fun a => a.1)),
   "                return 0",
   "            case '*'",
   "                return 1",
   "        end",
   "    end",
   "end"]

/-- The `__fish_stg_complete_alias` function block: a fixed head, two
case lines per alias in order, and a fixed tail (whose trailing newline
in the Python literal yields a final blank line). -/
def complete_alias_lines (aliases : List (String × String)) : List String :=
  ["",
   "function __fish_stg_complete_alias",
   "    set --local tokens (commandline -opc) (commandline -ct)",
   "    set --local cmd \"$tokens[2]\"",
   "    set --erase tokens[1 2]",
   "    switch \"$cmd\""]
  ++ aliases.flatMap
      (fun a =>
        ["        case " ++ a.1,
         "            set --prepend tokens " ++ a.2])
  ++ ["    end",
      "    complete -C\"$tokens\"",
      "end",
      ""]

/-- `write_fish_completion`, as the list of lines it prints: the fixed
preamble, the alias predicate and dispatch functions, the alias
directives, the help-subcommand block listing every command and alias,
then the per-command blocks in registry order. -/
def fish_completion_lines (commands : List Cmd)
    (defaults : List (String × List String)) : Except String (List String) := do
  let aliases ← collect_aliases defaults
  let commandBlocks ← commands.mapM render_command
  Except.ok
    (preamble_lines
     ++ is_alias_lines aliases
     ++ complete_alias_lines aliases
     ++ ["### Aliases: " ++ String.intercalate " " (aliases.map (fun a => a.1)),
         "complete    -c stg -n '__fish_stg_is_alias' -x -a '(__fish_stg_complete_alias)'"]
     ++ aliases.map
         (fun a =>
           "complete    -c stg -n '__fish_use_subcommand' -x -a " ++ a.1
             ++ " -d 'Alias for \"" ++ a.2 ++ "\"'")
     ++ ["",
         "### help",
         "complete -f -c stg -n '__fish_use_subcommand' -x -a help -d 'print the detailed command usage'"]
     ++ commands.map
         (fun c =>
           "complete -f -c stg -n '__fish_seen_subcommand_from help' -a "
             ++ c.name ++ " -d '" ++ c.help ++ "'")
     ++ aliases.map
         (fun a =>
           "complete -f -c stg -n '__fish_seen_subcommand_from help' -a "
             ++ a.1 ++ " -d 'Alias for \"" ++ a.2 ++ "\"'")
     ++ commandBlocks.flatten)

/-! ### Spec-side definitions (stated from the specification's words) -/

/-- An argument specification is well-formed when it matches one of the
four variants the spec names: `Range`, `Literal`, `PathLike` or
`DynamicKeyword` (a bare keyword must lie in `file_args` or in
`has_fish_func_args`). -/
def well_formed_arg : Arg → Bool
  | Arg.bare keyword =>
      file_args.contains keyword || has_fish_func_args.contains keyword
  | Arg.patch_range _ => true
  | Arg.strings _ => true

/-- The token list the spec promises per specification: one token per
`Literal` value, one per recognized `Range` endpoint, one per
`DynamicKeyword`, zero for `PathLike`. -/
def classifier_spec_tokens : Arg → List String
  | Arg.patch_range endpoints =>
      endpoints.filterMap (fun endpoint =>
        if endpoint ∈ has_fish_func_args then
          some (fish_func_expr endpoint)
        else
          none)
  | Arg.strings values => values
  | Arg.bare keyword =>
      if keyword ∈ file_args then [] else [fish_func_expr keyword]

/-- A specification is `PathLike` exactly when it is a bare keyword from
the path-like set. -/
def is_path_like : Arg → Bool
  | Arg.bare keyword => file_args.contains keyword
  | Arg.patch_range _ => false
  | Arg.strings _ => false

/-- The Alias Resolver as the spec states it: keep exactly the entries
whose key starts with the alias namespace, alias = key minus the
prefix, target = first element of the value list, in table order. -/
def alias_resolver_spec (defaults : List (String × List String)) :
    List (String × String) :=
  (defaults.filter (fun p => str_startswith p.1 "stgit.alias.")).map
    (fun p => (str_drop p.1 (str_len "stgit.alias."), p.2.headD ""))

/-! ### Helper lemmas -/

@[simp] lemma except_map_ok {α β : Type} (f : α → β) (x : α) :
    Except.map f (Except.ok x : Except String α) = Except.ok (f x) := rfl

@[simp] lemma except_map_error {α β : Type} (f : α → β) (e : String) :
    Except.map f (Except.error e : Except String α) = Except.error e := rfl

lemma string_append_cancel {s t k1 k2 : String}
    (h : s ++ k1 ++ t = s ++ k2 ++ t) : k1 = k2 := by
  have hd : s.data ++ k1.data ++ t.data = s.data ++ k2.data ++ t.data := by
    have := congrArg String.data h
    simpa [String.data_append] using this
  exact String.ext (List.append_cancel_left (List.append_cancel_right hd))

lemma completions_tokens_eq_spec (args : List Arg)
    (h : args.all well_formed_arg = true) :
    completions_from_args_tokens args
      = Except.ok (args.flatMap classifier_spec_tokens) := by
  induction args with
  | nil => rfl
  | cons a rest ih =>
    rw [List.all_cons, Bool.and_eq_true] at h
    have hr := ih h.2
    cases a with
    | patch_range endpoints =>
      simp [completions_from_args_tokens, hr, classifier_spec_tokens]
    | strings values =>
      simp [completions_from_args_tokens, hr, classifier_spec_tokens]
    | bare keyword =>
      have hk : keyword ∈ file_args ∨ keyword ∈ has_fish_func_args := by
        have h1 := h.1
        rw [well_formed_arg, Bool.or_eq_true] at h1
        rcases h1 with h1 | h1
        · exact Or.inl (List.elem_iff.mp h1)
        · exact Or.inr (List.elem_iff.mp h1)
      by_cases hf : keyword ∈ file_args
      · simp [completions_from_args_tokens, hf, hr, classifier_spec_tokens]
      · have hh : keyword ∈ has_fish_func_args := hk.resolve_left hf
        simp [completions_from_args_tokens, hf, hh, hr, classifier_spec_tokens]

/-! ### Claim theorems -/

/-- C2: the flag-selection function returns the path-completion flag
`-r` iff the argument list contains a `PathLike` specification, the
plain flag `-f` otherwise, and `-f` on the empty list. -/
theorem flag_selection_spec (args : List Arg) :
    ((get_file_completion_flag args = "-r")
      ↔ ∃ a ∈ args, is_path_like a = true) ∧
    ((¬∃ a ∈ args, is_path_like a = true) →
      get_file_completion_flag args = "-f") ∧
    get_file_completion_flag ([] : List Arg) = "-f" := by
  have key : (file_args.any (fun file_arg => args.contains (Arg.bare file_arg))
        = true) ↔ ∃ a ∈ args, is_path_like a = true := by
    constructor
    · intro hx
      rw [List.any_eq_true] at hx
      obtain ⟨fa, hfa, hmem⟩ := hx
      refine ⟨Arg.bare fa, List.elem_iff.mp hmem, ?_⟩
      rw [is_path_like]
      exact List.elem_iff.mpr hfa
    · rintro ⟨a, ha, hp⟩
      cases a with
      | patch_range endpoints => simp [is_path_like] at hp
      | strings values => simp [is_path_like] at hp
      | bare keyword =>
        rw [is_path_like] at hp
        rw [List.any_eq_true]
        exact ⟨keyword, List.elem_iff.mp hp, List.elem_iff.mpr ha⟩
  refine ⟨?_, ?_, rfl⟩
  · unfold get_file_completion_flag
    by_cases hx : ∃ a ∈ args, is_path_like a = true
    · rw [if_pos (key.mpr hx)]
      simp [hx]
    · rw [if_neg (fun hc => hx (key.mp hc))]
      constructor
      · intro hbad
        exact absurd hbad (by decide)
      · intro hex
        exact absurd hex hx
  · intro hx
    unfold get_file_completion_flag
    rw [if_neg (fun hc => hx (key.mp hc))]

/-- C2 witness. -/
theorem flag_selection_spec_witness :
    get_file_completion_flag [Arg.bare "dir"] = "-r"
      ∧ get_file_completion_flag ([] : List Arg) = "-f" :=
  ⟨(flag_selection_spec [Arg.bare "dir"]).1.mpr
      ⟨Arg.bare "dir", by decide, by decide⟩,
   (flag_selection_spec ([] : List Arg)).2.2⟩

/-- C6: the provider-function expression is an injective, deterministic
transform of the keyword, and the `Range("applied_patches",
"unapplied_patches")` specification yields exactly the two distinct
provider-call tokens joined by one space. -/
theorem provider_name_injective_stable :
    (∀ k1 k2 : String, fish_func_expr k1 = fish_func_expr k2 → k1 = k2) ∧
    completions_from_args [Arg.patch_range ["applied_patches", "unapplied_patches"]]
      = Except.ok (fish_func_expr "applied_patches" ++ " "
          ++ fish_func_expr "unapplied_patches") ∧
    fish_func_expr "applied_patches" ≠ fish_func_expr "unapplied_patches" := by
  refine ⟨?_, by rfl, by decide⟩
  intro k1 k2 h
  exact string_append_cancel h

/-- C6 witness. -/
theorem provider_name_injective_stable_witness : ("commit" : String) = "commit" :=
  provider_name_injective_stable.1 "commit" "commit" rfl

/-- C7: the generator is deterministic — on identical command
registries and identical configuration defaults it produces identical
output. -/
theorem generator_deterministic (commands1 commands2 : List Cmd)
    (defaults1 defaults2 : List (String × List String))
    (hc : commands1 = commands2) (hd : defaults1 = defaults2) :
    fish_completion_lines commands1 defaults1
      = fish_completion_lines commands2 defaults2 := by
  rw [hc, hd]

/-- C7 witness. -/
theorem generator_deterministic_witness :
    fish_completion_lines [] [] = fish_completion_lines [] [] :=
  generator_deterministic [] [] [] [] rfl rfl

/-- C10: a `Range` endpoint outside the recognized dynamic-keyword set
is silently skipped (no token, no error), while the same unrecognized
keyword as a bare specification raises the unknown-arg-kind error. -/
theorem range_endpoint_skip (keyword : String) (endpoints : List String)
    (hh : keyword ∉ has_fish_func_args) :
    completions_from_args_tokens [Arg.patch_range endpoints]
      = Except.ok (endpoints.filterMap (fun endpoint =>
          if endpoint ∈ has_fish_func_args then
            some (fish_func_expr endpoint)
          else
            none)) ∧
    completions_from_args_tokens [Arg.patch_range [keyword]] = Except.ok [] ∧
    (keyword ∉ file_args →
      completions_from_args [Arg.bare keyword]
        = Except.error ("unknown arg kind: " ++ keyword)) := by
  refine ⟨?_, ?_, ?_⟩
  · simp [completions_from_args_tokens]
  · simp [completions_from_args_tokens, hh]
  · intro hf
    simp [completions_from_args, completions_from_args_tokens, hf, hh]

/-- C10 witness. -/
theorem range_endpoint_skip_witness :
    completions_from_args_tokens [Arg.patch_range ["bogus"]] = Except.ok []
      ∧ completions_from_args [Arg.bare "bogus"]
          = Except.error ("unknown arg kind: " ++ "bogus") :=
  ⟨(range_endpoint_skip "bogus" ["bogus"] (by decide)).2.1,
   (range_endpoint_skip "bogus" ["bogus"] (by decide)).2.2 (by decide)⟩

@[simp] lemma except_bind_ok {α β : Type} (x : α) (f : α → Except String β) :
    (Except.ok x : Except String α) >>= f = f x := rfl

@[simp] lemma except_bind_error {α β : Type} (e : String)
    (f : α → Except String β) :
    (Except.error e : Except String α) >>= f = Except.error e := rfl

/-- C1: on well-formed argument lists the classifier yields exactly the
spec's token list — one token per `Literal` value, one per recognized
`Range` endpoint, one per `DynamicKeyword`, zero for `PathLike`, in
original order — joined by single spaces; and when the token list is
empty, the rendered directive carries the empty string in the
value-expression position (no `-xa` clause is attached). -/
theorem classifier_output_spec (args : List Arg)
    (h : args.all well_formed_arg = true) :
    completions_from_args_tokens args
      = Except.ok (args.flatMap classifier_spec_tokens) ∧
    completions_from_args args
      = Except.ok (String.intercalate " " (args.flatMap classifier_spec_tokens)) ∧
    (∀ (cmdname : String) (opt : Opt), opt.args = args →
      args.flatMap classifier_spec_tokens = [] →
      render_option cmdname opt = Except.ok (String.intercalate " "
        ["complete",
         get_file_completion_flag args,
         "-c stg",
         "-n '__fish_seen_subcommand_from " ++ cmdname ++ "'",
         (opt_flag_tokens opt.flags).1,
         (opt_flag_tokens opt.flags).2,
         "-d '" ++ opt.short ++ "'",
         ""])) := by
  have h1 := completions_tokens_eq_spec args h
  refine ⟨h1, by simp [completions_from_args, h1], ?_⟩
  intro cmdname opt hargs hempty
  subst hargs
  have hc : completions_from_args opt.args = Except.ok "" := by
    rw [completions_from_args, h1, hempty]
    rfl
  rw [render_option, hc, except_map_ok]
  simp

/-- C1 witness. -/
theorem classifier_output_spec_witness :
    completions_from_args [Arg.strings ["a", "b"], Arg.bare "files", Arg.bare "commit"]
      = Except.ok "a b (__fish_stg_commit)" :=
  ((classifier_output_spec
      [Arg.strings ["a", "b"], Arg.bare "files", Arg.bare "commit"]
      (by decide)).2.1).trans (by rfl)

lemma completions_tokens_error (args : List Arg) (keyword : String)
    (hmem : Arg.bare keyword ∈ args) (hf : keyword ∉ file_args)
    (hh : keyword ∉ has_fish_func_args) :
    ∃ e, completions_from_args_tokens args = Except.error e := by
  induction args with
  | nil => cases hmem
  | cons a rest ih =>
    rcases List.mem_cons.mp hmem with heq | hmem2
    · rw [← heq]
      exact ⟨"unknown arg kind: " ++ keyword,
        by simp [completions_from_args_tokens, hf, hh]⟩
    · obtain ⟨e, he⟩ := ih hmem2
      cases a with
      | patch_range endpoints =>
        exact ⟨e, by simp [completions_from_args_tokens, he]⟩
      | strings values =>
        exact ⟨e, by simp [completions_from_args_tokens, he]⟩
      | bare k =>
        by_cases hkf : k ∈ file_args
        · exact ⟨e, by simp [completions_from_args_tokens, hkf, he]⟩
        · by_cases hkh : k ∈ has_fish_func_args
          · exact ⟨e, by simp [completions_from_args_tokens, hkf, hkh, he]⟩
          · exact ⟨"unknown arg kind: " ++ k,
              by simp [completions_from_args_tokens, hkf, hkh]⟩

lemma mapM_error_of_mem {α β : Type} (f : α → Except String β) (l : List α)
    (x : α) (hx : x ∈ l) (he : ∃ e, f x = Except.error e) :
    ∃ e, l.mapM f = Except.error e := by
  induction l with
  | nil => cases hx
  | cons a t ih =>
    rw [List.mapM_cons]
    rcases List.mem_cons.mp hx with heq | hx2
    · obtain ⟨e, hfe⟩ := he
      rw [← heq] at *
      exact ⟨e, by simp [hfe]⟩
    · cases hfa : f a with
      | error e =>
        exact ⟨e, by simp only [hfa, except_bind_error]⟩
      | ok b =>
        obtain ⟨e, hm⟩ := ih hx2
        exact ⟨e, by simp only [hfa, hm, except_bind_ok, except_bind_error]⟩

lemma render_command_error (c : Cmd) (e : String)
    (h : completions_from_args c.args = Except.error e) :
    render_command c = Except.error e := by
  rw [render_command, h]
  rfl

lemma fish_completion_error (commands : List Cmd)
    (defaults : List (String × List String)) (c : Cmd) (hc : c ∈ commands)
    (he : ∃ e, render_command c = Except.error e) :
    ∃ e, fish_completion_lines commands defaults = Except.error e := by
  rw [fish_completion_lines]
  cases ha : collect_aliases defaults with
  | error e => exact ⟨e, by simp only [ha, except_bind_error]⟩
  | ok aliases =>
    obtain ⟨e, hm⟩ := mapM_error_of_mem render_command commands c hc he
    exact ⟨e, by simp only [ha, hm, except_bind_ok, except_bind_error]⟩

/-- C3: a bare specification outside all four known variants makes the
classifier fail with the unknown-arg-kind error — it returns no token
list — and the error propagates uncaught, so the whole generator
aborts with an error whenever such a command is in the registry. -/
theorem unknown_arg_kind_fatal (args : List Arg) (keyword : String)
    (hmem : Arg.bare keyword ∈ args) (hf : keyword ∉ file_args)
    (hh : keyword ∉ has_fish_func_args) :
    (∃ e, completions_from_args_tokens args = Except.error e) ∧
    (∃ e, completions_from_args args = Except.error e) ∧
    (∀ (commands : List Cmd) (defaults : List (String × List String)) (c : Cmd),
      c ∈ commands → c.args = args →
      ∃ e, fish_completion_lines commands defaults = Except.error e) := by
  obtain ⟨e, he⟩ := completions_tokens_error args keyword hmem hf hh
  refine ⟨⟨e, he⟩, ⟨e, by simp [completions_from_args, he]⟩, ?_⟩
  intro commands defaults c hc hargs
  apply fish_completion_error commands defaults c hc
  exact ⟨e, render_command_error c e (by rw [hargs, completions_from_args, he]; rfl)⟩

/-- C3 witness. -/
theorem unknown_arg_kind_fatal_witness :
    ∃ e, completions_from_args [Arg.bare "branch_name"] = Except.error e :=
  (unknown_arg_kind_fatal [Arg.bare "branch_name"] "branch_name"
    (by decide) (by decide) (by decide)).2.1

/-- C4: every successful command block has the fixed directive order —
separator comment, subcommand-registration directive, positional
directive, help-flag directive, then the option directives in
declaration order — so registration always precedes every option
directive. -/
theorem command_directive_order (c : Cmd) (lines : List String)
    (h : render_command c = Except.ok lines) :
    ∃ completions optionLines,
      completions_from_args c.args = Except.ok completions ∧
      c.options.mapM (render_option c.name) = Except.ok optionLines ∧
      lines =
        ["",
         "### " ++ c.name,
         "complete    -c stg -n '__fish_use_subcommand' -x -a " ++ c.name
           ++ " -d '" ++ c.help ++ "'",
         String.intercalate " "
           ["complete",
            get_file_completion_flag c.args,
            "-c stg",
            "-n '__fish_seen_subcommand_from " ++ c.name ++ "'",
            (if completions ≠ "" then "-ra '" ++ completions ++ "'" else "")],
         "complete -f -c stg -n '__fish_seen_subcommand_from " ++ c.name
           ++ "' -s h -l help -d 'show detailed help for " ++ c.name ++ "'"]
        ++ optionLines := by
  rw [render_command] at h
  cases hc : completions_from_args c.args with
  | error e =>
    rw [hc] at h
    simp only [except_bind_error] at h
    cases h
  | ok completions =>
    rw [hc] at h
    simp only [except_bind_ok] at h
    cases hm : c.options.mapM (render_option c.name) with
    | error e =>
      rw [hm] at h
      simp only [except_bind_error] at h
      cases h
    | ok optionLines =>
      rw [hm] at h
      simp only [except_bind_ok, Except.ok.injEq] at h
      exact ⟨completions, optionLines, rfl, rfl, h.symm⟩

/-- C4 witness. -/
theorem command_directive_order_witness :
    ∃ completions optionLines,
      completions_from_args (Cmd.mk "pop" "Pop patches" [] []).args
        = Except.ok completions ∧
      (Cmd.mk "pop" "Pop patches" [] []).options.mapM
          (render_option (Cmd.mk "pop" "Pop patches" [] []).name)
        = Except.ok optionLines := by
  obtain ⟨completions, optionLines, h1, h2, _⟩ :=
    command_directive_order (Cmd.mk "pop" "Pop patches" [] [])
      ((render_command (Cmd.mk "pop" "Pop patches" [] [])).toOption.getD [])
      (by rfl)
  exact ⟨completions, optionLines, h1, h2⟩

/-- C5: alias collection keeps exactly the entries whose key starts
with the alias namespace, maps each to (key minus prefix, first value
element) unchanged, and preserves table order. -/
theorem alias_resolution (defaults : List (String × List String))
    (h : ∀ p ∈ defaults, str_startswith p.1 "stgit.alias." = true → p.2 ≠ []) :
    collect_aliases defaults = Except.ok (alias_resolver_spec defaults) := by
  induction defaults with
  | nil => rfl
  | cons p rest ih =>
    obtain ⟨name, values⟩ := p
    have ih2 := ih (fun q hq => h q (List.mem_cons_of_mem _ hq))
    by_cases hs : str_startswith name "stgit.alias." = true
    · cases values with
      | nil =>
        exact absurd rfl (h (name, []) (List.mem_cons_self _ _) hs)
      | cons v vs =>
        simp [collect_aliases, hs, ih2, alias_resolver_spec, List.filter_cons]
    · simp [collect_aliases, hs, ih2, alias_resolver_spec, List.filter_cons]

/-- C5 witness. -/
theorem alias_resolution_witness :
    collect_aliases
        [("stgit.alias.co", ["checkout"]), ("stgit.keep", []),
         ("stgit.alias.s", ["status"])]
      = Except.ok (alias_resolver_spec
          [("stgit.alias.co", ["checkout"]), ("stgit.keep", []),
           ("stgit.alias.s", ["status"])]) :=
  alias_resolution _ (by decide)

lemma opt_flag_tokens_fst_const (flags : List String) (init : String × String)
    (h : ∀ f ∈ flags, ¬(str_len f = 2 ∧ str_startswith f "-" = true)) :
    (flags.foldl
      (fun state flag =>
        ((if str_len flag = 2 && str_startswith flag "-" then
            "-s " ++ str_drop flag 1
          else
            state.1),
         (if str_startswith flag "--" then
            "-l " ++ str_drop flag 2
          else
            state.2))) init).1 = init.1 := by
  induction flags generalizing init with
  | nil => rfl
  | cons f t ih =>
    rw [List.foldl_cons]
    have hcond : ¬((str_len f = 2 && str_startswith f "-") = true) := by
      intro hc
      rw [Bool.and_eq_true, decide_eq_true_eq] at hc
      exact h f (List.mem_cons_self f t) hc
    rw [ih _ (fun g hg => h g (List.mem_cons_of_mem f hg))]
    exact if_neg hcond

lemma opt_flag_tokens_snd_const (flags : List String) (init : String × String)
    (h : ∀ f ∈ flags, str_startswith f "--" = false) :
    (flags.foldl
      (fun state flag =>
        ((if str_len flag = 2 && str_startswith flag "-" then
            "-s " ++ str_drop flag 1
          else
            state.1),
         (if str_startswith flag "--" then
            "-l " ++ str_drop flag 2
          else
            state.2))) init).2 = init.2 := by
  induction flags generalizing init with
  | nil => rfl
  | cons f t ih =>
    rw [List.foldl_cons]
    have hcond : ¬(str_startswith f "--" = true) := by
      simp [h f (List.mem_cons_self f t)]
    rw [ih _ (fun g hg => h g (List.mem_cons_of_mem f hg))]
    exact if_neg hcond

/-- C9: every successful option directive keeps the fixed eight-token
shape joined by single spaces; with no single-character short flag the
short-flag position holds the four-space placeholder, and with no long
flag the long-flag position holds the empty string — neither is
dropped, so the description and value-expression tokens never shift
position. -/
theorem option_directive_shape (cmdname : String) (opt : Opt) (line : String)
    (h : render_option cmdname opt = Except.ok line) :
    ∃ completions,
      completions_from_args opt.args = Except.ok completions ∧
      line = String.intercalate " "
        ["complete",
         get_file_completion_flag opt.args,
         "-c stg",
         "-n '__fish_seen_subcommand_from " ++ cmdname ++ "'",
         (opt_flag_tokens opt.flags).1,
         (opt_flag_tokens opt.flags).2,
         "-d '" ++ opt.short ++ "'",
         (if completions ≠ "" then "-xa '" ++ completions ++ "'" else "")] ∧
      ((∀ f ∈ opt.flags, ¬(str_len f = 2 ∧ str_startswith f "-" = true)) →
        (opt_flag_tokens opt.flags).1 = "    ") ∧
      ((∀ f ∈ opt.flags, str_startswith f "--" = false) →
        (opt_flag_tokens opt.flags).2 = "") := by
  rw [render_option] at h
  cases hc : completions_from_args opt.args with
  | error e =>
    rw [hc] at h
    cases h
  | ok completions =>
    rw [hc, except_map_ok, Except.ok.injEq] at h
    exact ⟨completions, rfl, h.symm,
      fun hh => opt_flag_tokens_fst_const opt.flags ("    ", "") hh,
      fun hh => opt_flag_tokens_snd_const opt.flags ("    ", "") hh⟩

/-- C9 witness. -/
theorem option_directive_shape_witness :
    ∃ completions,
      completions_from_args [Arg.strings ["force"]] = Except.ok completions ∧
      (opt_flag_tokens ["--force"]).1 = "    " := by
  obtain ⟨completions, h1, _, h3, _⟩ :=
    option_directive_shape "branch" (Opt.mk ["--force"] [Arg.strings ["force"]] "force")
      ((render_option "branch"
          (Opt.mk ["--force"] [Arg.strings ["force"]] "force")).toOption.getD "")
      (by rfl)
  exact ⟨completions, h1, h3 (by decide)⟩

/-- The round-trip scenario command of the spec: `new` with an empty
positional argument list and a single `-m`/`--message` option taking a
`Literal([])` argument. -/
def new_command : Cmd :=
  Cmd.mk "new" "Create a new patch" []
    [Opt.mk ["-m", "--message"] [Arg.strings []] "patch message"]

set_option maxRecDepth 8000 in
/-- C8: rendering the registry containing exactly the `new` command
(and no aliases) yields a script with exactly one
subcommand-registration line for `new`, exactly one help-flag line, and
exactly one option line; the option line carries `-s m` and
`-l message`, uses the plain value-completion flag `-f`, and ends in
the empty value-expression token (no completion-expression clause). -/
theorem new_command_roundtrip :
    ∃ lines,
      fish_completion_lines [new_command] [] = Except.ok lines ∧
      lines.count
        ("complete    -c stg -n '__fish_use_subcommand' -x -a new -d 'Create a new patch'")
        = 1 ∧
      lines.count
        ("complete -f -c stg -n '__fish_seen_subcommand_from new' -s h -l help -d 'show detailed help for new'")
        = 1 ∧
      lines.count
        ("complete -f -c stg -n '__fish_seen_subcommand_from new' -s m -l message -d 'patch message' ")
        = 1 := by
  refine ⟨_, rfl, ?_, ?_, ?_⟩ <;> rfl
